import Mathlib

/-!
# Verification of the Dionela text-art glyph mapper

Shallow embedding of the per-cell glyph-mapping procedure of the two scripts
`src/dionela.py` (streaming / ANSI terminal variant, `print_video_as_text`)
and `src/dionela2.py` (tiled / video-file variant,
`video_to_dionela_text_video`), together with the grid-size computation and
the rendering/resource-release skeletons, and proofs of the specification's
claims about them.

Conventions: a downscaled frame (the Cell Grid) is a list of rows, each row a
list of BGR pixels; Python exceptions (`ZeroDivisionError` from `i % 0`,
`IndexError` from out-of-range indexing) are modelled with `Except`.
-/

/-- A pixel color in OpenCV's BGR channel order (`b, g, r = small_frame[y, x]`). -/
structure BGR where
  b : Nat
  g : Nat
  r : Nat
deriving DecidableEq, Repr

/-- A downscaled frame (Cell Grid): rows of BGR pixels, row-major. -/
abbrev Frame := List (List BGR)

/-- Python runtime errors the mapping loops can raise. -/
inductive PyErr where
  | zeroDivisionError
  | indexError
deriving DecidableEq, Repr

/-- Python `a % b` on nonnegative integers: raises `ZeroDivisionError` when `b = 0`. -/
def pymod (a b : Nat) : Except PyErr Nat :=
  if b = 0 then .error .zeroDivisionError else .ok (a % b)

/-- Python `s[k]` on a string of characters: raises `IndexError` when out of range. -/
def pyindex (s : List Char) (k : Nat) : Except PyErr Char :=
  match s.get? k with
  | none => .error .indexError
  | some ch => .ok ch

/-- The background test of both scripts: with `background_threshold = (tb, tg, tr)`
the cell is suppressed iff `b <= tb and g <= tg and r <= tr`
(`dionela.py` line 91, `dionela2.py` line 97); with `None`, never. -/
def isBackground (thr : Option (Nat × Nat × Nat)) (c : BGR) : Bool :=
  match thr with
  | none => false
  | some (tb, tg, tr) => decide (c.b ≤ tb ∧ c.g ≤ tg ∧ c.r ≤ tr)

/-- The mapper's output for one grid position: blank, or a colored character. -/
inductive CellOut where
  | blank
  | glyph (color : BGR) (ch : Char)
deriving DecidableEq, Repr

/-- One cell of the streaming variant (`dionela.py` lines 85-105): a suppressed
cell appends `" "` and `continue`s BEFORE the counter is touched; otherwise
`letter = letters[global_letter_index % letter_count]` and
`global_letter_index += 1`. Returns the emitted cell and the updated counter. -/
def streamCell (letters : List Char) (thr : Option (Nat × Nat × Nat)) (c : BGR)
    (idx : Nat) : Except PyErr (CellOut × Nat) :=
  if isBackground thr c then .ok (.blank, idx)
  else
    match pymod idx letters.length with
    | .error e => .error e
    | .ok k =>
      match pyindex letters k with
      | .error e => .error e
      | .ok ch => .ok (.glyph c ch, idx + 1)

/-- One cell of the tiled variant (`dionela2.py` lines 92-103): a suppressed
cell does `letter_index += 1` and then `continue`s; otherwise
`letter = letters[letter_index % letter_count]` and `letter_index += 1`. -/
def tiledCell (letters : List Char) (thr : Option (Nat × Nat × Nat)) (c : BGR)
    (idx : Nat) : Except PyErr (CellOut × Nat) :=
  if isBackground thr c then .ok (.blank, idx + 1)
  else
    match pymod idx letters.length with
    | .error e => .error e
    | .ok k =>
      match pyindex letters k with
      | .error e => .error e
      | .ok ch => .ok (.glyph c ch, idx + 1)

/-- The inner `for x in range(new_w)` loop of either variant, threading the
letter counter left to right through one row. -/
def mapRow (cell : BGR → Nat → Except PyErr (CellOut × Nat)) :
    List BGR → Nat → Except PyErr (List CellOut × Nat)
  | [], idx => .ok ([], idx)
  | c :: cs, idx =>
    match cell c idx with
    | .error e => .error e
    | .ok (o, idx') =>
      match mapRow cell cs idx' with
      | .error e => .error e
      | .ok (os, idx'') => .ok (o :: os, idx'')

/-- The `for y in range(new_h)` loop of either variant, visiting rows top to
bottom (row-major order over the whole grid). -/
def mapGrid (cell : BGR → Nat → Except PyErr (CellOut × Nat)) :
    Frame → Nat → Except PyErr (List (List CellOut) × Nat)
  | [], idx => .ok ([], idx)
  | row :: rows, idx =>
    match mapRow cell row idx with
    | .error e => .error e
    | .ok (os, idx') =>
      match mapGrid cell rows idx' with
      | .error e => .error e
      | .ok (oss, idx'') => .ok (os :: oss, idx'')

/-- One frame of the streaming variant, continuing from counter `idx`
(`global_letter_index` is shared across the whole video, `dionela.py` line 62). -/
def streamFrame (letters : List Char) (thr : Option (Nat × Nat × Nat))
    (f : Frame) (idx : Nat) : Except PyErr (List (List CellOut) × Nat) :=
  mapGrid (streamCell letters thr) f idx

/-- The streaming variant's whole-video loop: the counter is threaded across
frame boundaries and never reset (`dionela.py` lines 67-114). -/
def streamVideo (letters : List Char) (thr : Option (Nat × Nat × Nat)) :
    List Frame → Nat → Except PyErr (List (List (List CellOut)) × Nat)
  | [], idx => .ok ([], idx)
  | f :: v, idx =>
    match streamFrame letters thr f idx with
    | .error e => .error e
    | .ok (os, idx') =>
      match streamVideo letters thr v idx' with
      | .error e => .error e
      | .ok (oss, idx'') => .ok (os :: oss, idx'')

/-- One frame of the tiled variant: `letter_index = 0` is re-initialized at the
start of every frame (`dionela2.py` line 88). -/
def tiledFrameOut (letters : List Char) (thr : Option (Nat × Nat × Nat))
    (f : Frame) : Except PyErr (List (List CellOut)) :=
  match mapGrid (tiledCell letters thr) f 0 with
  | .error e => .error e
  | .ok (oss, _) => .ok oss

/-- The tiled variant's whole-video loop (`dionela2.py` lines 74-127): each
frame is mapped with a fresh counter. -/
def tiledVideo (letters : List Char) (thr : Option (Nat × Nat × Nat)) :
    List Frame → Except PyErr (List (List (List CellOut)))
  | [] => .ok []
  | f :: v =>
    match tiledFrameOut letters thr f with
    | .error e => .error e
    | .ok os =>
      match tiledVideo letters thr v with
      | .error e => .error e
      | .ok oss => .ok (os :: oss)

/-- The character the spec's cycling formula assigns to visit position `k`:
`Alphabet[k mod L]` (total via a default that is never used when `L ≥ 1`). -/
def specCycleChar (letters : List Char) (k : Nat) : Char :=
  letters.getD (k % letters.length) ' '

/-- The glyph row the spec's formula predicts for consecutive visit positions
starting at `idx`: cell `j` of `cs` gets `Alphabet[(idx + j) mod L]` and keeps
its own color. -/
def specRun (letters : List Char) : Nat → List BGR → List CellOut
  | _, [] => []
  | idx, c :: cs => .glyph c (specCycleChar letters idx) :: specRun letters (idx + 1) cs

/-- Python `int(q)` on a real value: truncation toward zero. -/
def pyint (q : ℚ) : ℤ :=
  if 0 ≤ q then ⌊q⌋ else ⌈q⌉

/-- `new_w = max(1, int(orig_w * downscale))` (`dionela.py` line 52,
`dionela2.py` line 55). -/
def new_w (orig_w : ℕ) (downscale : ℚ) : ℤ :=
  max 1 (pyint ((orig_w : ℚ) * downscale))

/-- `new_h = max(1, int(orig_h * downscale))` (`dionela.py` line 53,
`dionela2.py` line 56). -/
def new_h (orig_h : ℕ) (downscale : ℚ) : ℤ :=
  max 1 (pyint ((orig_h : ℚ) * downscale))

/-- The triple of channel values the streaming variant interpolates into the
truecolor escape, in the escape's slot order: the source writes
`f"\033[38;2;{r};{g};{b}m"` (`dionela.py` line 102), so the pixel's `r` goes
into the first slot, `g` into the second, `b` into the third. -/
def streamEscapeArgs (c : BGR) : Nat × Nat × Nat :=
  (c.r, c.g, c.b)

/-- ANSI `38;2;p1;p2;p3` truecolor semantics: slot 1 is the displayed red,
slot 2 the displayed green, slot 3 the displayed blue. -/
def ansiDisplayedRGB (p : Nat × Nat × Nat) : Nat × Nat × Nat :=
  p

/-- The color tuple the tiled variant hands to `cv2.putText`:
`(int(b), int(g), int(r))` (`dionela2.py` line 121). -/
def tiledPutTextColor (c : BGR) : Nat × Nat × Nat :=
  (c.b, c.g, c.r)

/-- OpenCV drawing semantics: a color tuple is interpreted as (blue, green,
red). -/
def cvDisplayedBGR (p : Nat × Nat × Nat) : Nat × Nat × Nat :=
  p

/-- A pixel's color as displayed-RGB. -/
def pixelRGB (c : BGR) : Nat × Nat × Nat :=
  (c.r, c.g, c.b)

/-- A pixel's color as displayed-BGR. -/
def pixelBGR (c : BGR) : Nat × Nat × Nat :=
  (c.b, c.g, c.r)

/-- One token of the byte stream the streaming variant writes for a line: a
truecolor foreground escape (carrying its three slot parameters), a printable
character, or the end-of-line color reset `\033[0m`. -/
inductive Tok where
  | esc (p1 p2 p3 : Nat)
  | chr (c : Char)
  | reset
deriving DecidableEq, Repr

/-- What one mapped cell contributes to the line's byte stream: a suppressed
cell is the single literal space `" "` with no escape (`dionela.py` line 93);
an emitted cell is `color_code + letter` (`dionela.py` line 105). -/
def renderCellToks : CellOut → List Tok
  | .blank => [.chr ' ']
  | .glyph c ch => [.esc c.r c.g c.b, .chr ch]

/-- One whole line of the streaming output: the cells' tokens concatenated,
then the color reset appended (`dionela.py` line 108:
`"".join(line_chars) + "\033[0m"`). -/
def renderLineToks (cells : List CellOut) : List Tok :=
  (cells.map renderCellToks).flatten ++ [.reset]

/-- The characters a terminal prints from a token stream (escapes and resets
occupy no column). -/
def visibleChars (ts : List Tok) : List Char :=
  ts.filterMap fun t =>
    match t with
    | .chr c => some c
    | _ => none

/-- Modelled from the spec: the per-row-restart tiled variant (the spec's third
script) is not under `src/`. Per spec §4.1 mode 2, there is no running counter;
the character index for cell `(x, y)` is `x mod L`, suppressed cells emit blank
without affecting any index, and the suppression rule and color policy are the
same as in the other variants. -/
def perRowCell (letters : List Char) (thr : Option (Nat × Nat × Nat)) (c : BGR)
    (x : Nat) : Except PyErr CellOut :=
  if isBackground thr c then .ok .blank
  else
    match pymod x letters.length with
    | .error e => .error e
    | .ok k =>
      match pyindex letters k with
      | .error e => .error e
      | .ok ch => .ok (.glyph c ch)

/-- Modelled from the spec: one row of the per-row-restart variant, visiting
cells left to right with column index `x` counting from `x0`. -/
def perRowRowFrom (letters : List Char) (thr : Option (Nat × Nat × Nat)) :
    Nat → List BGR → Except PyErr (List CellOut)
  | _, [] => .ok []
  | x0, c :: cs =>
    match perRowCell letters thr c x0 with
    | .error e => .error e
    | .ok o =>
      match perRowRowFrom letters thr (x0 + 1) cs with
      | .error e => .error e
      | .ok os => .ok (o :: os)

/-- Modelled from the spec: one frame of the per-row-restart variant; every row
restarts its column index at 0, and no state crosses rows or frames. -/
def perRowFrame (letters : List Char) (thr : Option (Nat × Nat × Nat)) :
    Frame → Except PyErr (List (List CellOut))
  | [] => .ok []
  | row :: rows =>
    match perRowRowFrom letters thr 0 row with
    | .error e => .error e
    | .ok os =>
      match perRowFrame letters thr rows with
      | .error e => .error e
      | .ok oss => .ok (os :: oss)

/-- The cell at column `x` of row `y` of a mapped grid. -/
def gridCell (g : List (List CellOut)) (x y : Nat) : Option CellOut :=
  (g.get? y).bind fun row => row.get? x

/-- How a run of the streaming variant ends: the source is exhausted (`ret`
falsy, `break`), the user interrupts (`KeyboardInterrupt`, caught), or a Python
error escapes the loop body. -/
inductive StreamOutcome where
  | finished
  | interrupted
  | errored (e : PyErr)
deriving DecidableEq, Repr

/-- The streaming variant's `while True` loop (`dionela.py` lines 67-122) with
an optional user interrupt delivered at a frame boundary: `intr = some i` means
`KeyboardInterrupt` fires when `i` frames have been fully processed. -/
def streamLoop (letters : List Char) (thr : Option (Nat × Nat × Nat)) :
    List Frame → Nat → Option Nat → StreamOutcome × Nat
  | [], idx, _ => (.finished, idx)
  | _ :: _, idx, some 0 => (.interrupted, idx)
  | f :: v, idx, intr =>
    match streamFrame letters thr f idx with
    | .error e => (.errored e, idx)
    | .ok (_, idx') => streamLoop letters thr v idx' (intr.map fun i => i - 1)

/-- The whole streaming run (`dionela.py` lines 66-128): the loop sits inside
`try ... except KeyboardInterrupt ... finally: cap.release()`, so the capture
handle is released whichever way the loop ends. The Bool records whether
`cap.release()` ran. -/
def streamRun (letters : List Char) (thr : Option (Nat × Nat × Nat))
    (video : List Frame) (intr : Option Nat) : StreamOutcome × Bool :=
  ((streamLoop letters thr video 0 intr).1, true)

/-- The whole tiled run (`dionela2.py` lines 74-135): `cap.release()` and
`out.release()` are plain statements after the loop, with no `try`/`finally`,
so a Python error escaping the loop propagates before either release runs.
Returns the loop's result and whether (`cap` released, `out` released). -/
def tiledRun (letters : List Char) (thr : Option (Nat × Nat × Nat))
    (video : List Frame) :
    Except PyErr (List (List (List CellOut))) × Bool × Bool :=
  match tiledVideo letters thr video with
  | .ok oss => (.ok oss, true, true)
  | .error e => (.error e, false, false)

/-- All cells of a frame in row-major visiting order. -/
def frameCells (f : Frame) : List BGR :=
  f.flatten

/-- All cells of a video in visiting order: frames in order, each row-major. -/
def videoCells (v : List Frame) : List BGR :=
  (v.map List.flatten).flatten

/-- The mapped cells of a whole streaming run, in visiting order. -/
def videoOutCells (out : List (List (List CellOut))) : List CellOut :=
  (out.map List.flatten).flatten

/-- The white pixel of the spec's example scenario. -/
def whitePix : BGR := ⟨255, 255, 255⟩

/-- The black pixel of the spec's example scenario. -/
def darkPix : BGR := ⟨0, 0, 0⟩

/-- The spec's example 1x4 row: colors `[(0,0,0), (255,255,255), (0,0,0),
(255,255,255)]`. -/
def exampleRow : List BGR := [darkPix, whitePix, darkPix, whitePix]

section Helpers

variable {letters : List Char} {thr : Option (Nat × Nat × Nat)}

theorem length_pos_of_ne_nil (h : letters ≠ []) : 0 < letters.length :=
  List.length_pos.mpr h

theorem streamCell_eq (h : letters ≠ []) (c : BGR) (idx : Nat) :
    streamCell letters thr c idx =
      if isBackground thr c then .ok (.blank, idx)
      else .ok (.glyph c (specCycleChar letters idx), idx + 1) := by
  have hL : letters.length ≠ 0 := Nat.pos_iff_ne_zero.mp (length_pos_of_ne_nil h)
  have hlt : idx % letters.length < letters.length :=
    Nat.mod_lt _ (length_pos_of_ne_nil h)
  cases hb : isBackground thr c with
  | true => simp [streamCell, hb]
  | false =>
    have hx : letters[idx % letters.length]? =
        some letters[idx % letters.length] := List.getElem?_eq_getElem hlt
    have hgD : letters.getD (idx % letters.length) ' ' =
        letters[idx % letters.length] := by
      simp [List.getD, hx]
    simp [streamCell, hb, pymod, pyindex, hL, List.get?_eq_getElem?, hx,
      specCycleChar, hgD]

theorem tiledCell_eq (h : letters ≠ []) (c : BGR) (idx : Nat) :
    tiledCell letters thr c idx =
      if isBackground thr c then .ok (.blank, idx + 1)
      else .ok (.glyph c (specCycleChar letters idx), idx + 1) := by
  have hL : letters.length ≠ 0 := Nat.pos_iff_ne_zero.mp (length_pos_of_ne_nil h)
  have hlt : idx % letters.length < letters.length :=
    Nat.mod_lt _ (length_pos_of_ne_nil h)
  cases hb : isBackground thr c with
  | true => simp [tiledCell, hb]
  | false =>
    have hx : letters[idx % letters.length]? =
        some letters[idx % letters.length] := List.getElem?_eq_getElem hlt
    have hgD : letters.getD (idx % letters.length) ' ' =
        letters[idx % letters.length] := by
      simp [List.getD, hx]
    simp [tiledCell, hb, pymod, pyindex, hL, List.get?_eq_getElem?, hx,
      specCycleChar, hgD]

theorem specRun_append (letters : List Char) (idx : Nat) (a b : List BGR) :
    specRun letters idx (a ++ b) =
      specRun letters idx a ++ specRun letters (idx + a.length) b := by
  induction a generalizing idx with
  | nil => simp [specRun]
  | cons c cs ih =>
    have h1 : idx + (cs.length + 1) = idx + 1 + cs.length := by omega
    simp [List.cons_append, specRun, ih (idx + 1), h1]

theorem specRun_get? (letters : List Char) (idx k : Nat) (cs : List BGR) :
    (specRun letters idx cs).get? k =
      (cs.get? k).map fun c => CellOut.glyph c (specCycleChar letters (idx + k)) := by
  induction cs generalizing idx k with
  | nil => simp [specRun]
  | cons c rest ih =>
    cases k with
    | zero => simp [specRun]
    | succ k =>
      simp only [specRun, List.get?_cons_succ, ih (idx + 1) k]
      have : idx + 1 + k = idx + (k + 1) := by omega
      rw [this]

theorem specRun_length (letters : List Char) (idx : Nat) (cs : List BGR) :
    (specRun letters idx cs).length = cs.length := by
  induction cs generalizing idx with
  | nil => rfl
  | cons c rest ih => simp [specRun, ih]

theorem mapRow_stream_nobg (letters : List Char) (thr : Option (Nat × Nat × Nat))
    (h : letters ≠ []) (row : List BGR) (idx : Nat)
    (hbg : ∀ c ∈ row, isBackground thr c = false) :
    mapRow (streamCell letters thr) row idx =
      .ok (specRun letters idx row, idx + row.length) := by
  induction row generalizing idx with
  | nil => simp [mapRow, specRun]
  | cons c cs ih =>
    have hc : isBackground thr c = false := hbg c (List.mem_cons_self c cs)
    have hcs : ∀ x ∈ cs, isBackground thr x = false :=
      fun x hx => hbg x (List.mem_cons_of_mem c hx)
    have h1 : idx + (cs.length + 1) = idx + 1 + cs.length := by omega
    simp [mapRow, streamCell_eq h, hc, ih (idx + 1) hcs, specRun, h1]

theorem mapRow_tiled_nobg (letters : List Char) (thr : Option (Nat × Nat × Nat))
    (h : letters ≠ []) (row : List BGR) (idx : Nat)
    (hbg : ∀ c ∈ row, isBackground thr c = false) :
    mapRow (tiledCell letters thr) row idx =
      .ok (specRun letters idx row, idx + row.length) := by
  induction row generalizing idx with
  | nil => simp [mapRow, specRun]
  | cons c cs ih =>
    have hc : isBackground thr c = false := hbg c (List.mem_cons_self c cs)
    have hcs : ∀ x ∈ cs, isBackground thr x = false :=
      fun x hx => hbg x (List.mem_cons_of_mem c hx)
    have h1 : idx + (cs.length + 1) = idx + 1 + cs.length := by omega
    simp [mapRow, tiledCell_eq h, hc, ih (idx + 1) hcs, specRun, h1]

theorem mapGrid_stream_nobg (letters : List Char) (thr : Option (Nat × Nat × Nat))
    (h : letters ≠ []) (rows : Frame) (idx : Nat)
    (hbg : ∀ c ∈ rows.flatten, isBackground thr c = false) :
    ∃ oss, mapGrid (streamCell letters thr) rows idx =
        .ok (oss, idx + rows.flatten.length) ∧
      oss.flatten = specRun letters idx rows.flatten := by
  induction rows generalizing idx with
  | nil => exact ⟨[], by simp [mapGrid], by simp [specRun]⟩
  | cons row rest ih =>
    have hrow : ∀ c ∈ row, isBackground thr c = false :=
      fun c hc => hbg c (by simp [hc])
    have hrest : ∀ c ∈ rest.flatten, isBackground thr c = false :=
      fun c hc => hbg c (by simp [hc])
    obtain ⟨oss, hmap, hflat⟩ := ih (idx + row.length) hrest
    refine ⟨specRun letters idx row :: oss, ?_, ?_⟩
    · have h1 : idx + ((row :: rest).flatten).length =
          idx + row.length + rest.flatten.length := by
        simp [List.flatten_cons]; omega
      simp [mapGrid, mapRow_stream_nobg letters thr h row idx hrow, hmap, h1]
      omega
    · simp only [List.flatten_cons, hflat,
        specRun_append letters idx row rest.flatten]

theorem tiledCell_eq_streamCell_of_nobg (letters : List Char)
    (thr : Option (Nat × Nat × Nat)) (c : BGR) (idx : Nat)
    (hc : isBackground thr c = false) :
    tiledCell letters thr c idx = streamCell letters thr c idx := by
  simp [tiledCell, streamCell, hc]

theorem mapGrid_tiled_nobg (letters : List Char) (thr : Option (Nat × Nat × Nat))
    (h : letters ≠ []) (rows : Frame) (idx : Nat)
    (hbg : ∀ c ∈ rows.flatten, isBackground thr c = false) :
    ∃ oss, mapGrid (tiledCell letters thr) rows idx =
        .ok (oss, idx + rows.flatten.length) ∧
      oss.flatten = specRun letters idx rows.flatten := by
  induction rows generalizing idx with
  | nil => exact ⟨[], by simp [mapGrid], by simp [specRun]⟩
  | cons row rest ih =>
    have hrow : ∀ c ∈ row, isBackground thr c = false :=
      fun c hc => hbg c (by simp [hc])
    have hrest : ∀ c ∈ rest.flatten, isBackground thr c = false :=
      fun c hc => hbg c (by simp [hc])
    obtain ⟨oss, hmap, hflat⟩ := ih (idx + row.length) hrest
    refine ⟨specRun letters idx row :: oss, ?_, ?_⟩
    · have h1 : idx + ((row :: rest).flatten).length =
          idx + row.length + rest.flatten.length := by
        simp [List.flatten_cons]; omega
      simp [mapGrid, mapRow_tiled_nobg letters thr h row idx hrow, hmap, h1]
      omega
    · simp only [List.flatten_cons, hflat,
        specRun_append letters idx row rest.flatten]

theorem streamVideo_nobg (letters : List Char) (thr : Option (Nat × Nat × Nat))
    (h : letters ≠ []) (v : List Frame) (idx : Nat)
    (hbg : ∀ c ∈ videoCells v, isBackground thr c = false) :
    ∃ out, streamVideo letters thr v idx =
        .ok (out, idx + (videoCells v).length) ∧
      videoOutCells out = specRun letters idx (videoCells v) := by
  induction v generalizing idx with
  | nil => exact ⟨[], by simp [streamVideo, videoCells], by simp [videoCells, videoOutCells, specRun]⟩
  | cons f rest ih =>
    have hf : ∀ c ∈ f.flatten, isBackground thr c = false :=
      fun c hc => hbg c (by simp [videoCells, hc])
    have hrest : ∀ c ∈ videoCells rest, isBackground thr c = false := by
      intro c hc
      apply hbg c
      simp only [videoCells, List.map_cons, List.flatten_cons, List.mem_append]
      right
      simpa [videoCells] using hc
    obtain ⟨oss, hmap, hflat⟩ := mapGrid_stream_nobg letters thr h f idx hf
    obtain ⟨out, hvid, hvflat⟩ := ih (idx + f.flatten.length) hrest
    refine ⟨oss :: out, ?_, ?_⟩
    · have h2 : videoCells (f :: rest) = f.flatten ++ videoCells rest := by
        simp [videoCells]
      rw [h2, List.length_append]
      have h1 : idx + (f.flatten.length + (videoCells rest).length) =
          idx + f.flatten.length + (videoCells rest).length := by omega
      rw [h1]
      simp only [streamVideo, streamFrame, hmap, hvid]
    · have h2 : videoCells (f :: rest) = f.flatten ++ videoCells rest := by
        simp [videoCells]
      have h3 : videoOutCells (oss :: out) = oss.flatten ++ videoOutCells out := by
        simp [videoOutCells]
      rw [h3, h2, specRun_append letters idx f.flatten (videoCells rest), hflat,
        hvflat]

theorem mapRow_stream_ok (letters : List Char) (thr : Option (Nat × Nat × Nat))
    (h : letters ≠ []) (row : List BGR) (idx : Nat) :
    ∃ cells idx2, mapRow (streamCell letters thr) row idx = .ok (cells, idx2) ∧
      cells.length = row.length := by
  induction row generalizing idx with
  | nil => exact ⟨[], idx, by simp [mapRow], rfl⟩
  | cons c cs ih =>
    cases hc : isBackground thr c with
    | true =>
      obtain ⟨cells, idx2, hmap, hlen⟩ := ih idx
      refine ⟨.blank :: cells, idx2, ?_, by simp [hlen]⟩
      have hcell : streamCell letters thr c idx = .ok (.blank, idx) := by
        rw [streamCell_eq h]
        simp [hc]
      simp [mapRow, hcell, hmap]
    | false =>
      obtain ⟨cells, idx2, hmap, hlen⟩ := ih (idx + 1)
      refine ⟨.glyph c (specCycleChar letters idx) :: cells, idx2, ?_, by simp [hlen]⟩
      have hcell : streamCell letters thr c idx =
          .ok (.glyph c (specCycleChar letters idx), idx + 1) := by
        rw [streamCell_eq h]
        simp [hc]
      simp [mapRow, hcell, hmap]

theorem tiledCell_ok (letters : List Char) (thr : Option (Nat × Nat × Nat))
    (h : letters ≠ []) (c : BGR) (idx : Nat) :
    ∃ o, tiledCell letters thr c idx = .ok (o, idx + 1) := by
  rw [tiledCell_eq h]
  cases hc : isBackground thr c with
  | true => exact ⟨.blank, by simp⟩
  | false => exact ⟨.glyph c (specCycleChar letters idx), by simp⟩

theorem specCycleChar_congr_mod (letters : List Char) (x1 x2 : Nat)
    (hx : x1 % letters.length = x2 % letters.length) :
    specCycleChar letters x1 = specCycleChar letters x2 := by
  simp [specCycleChar, hx]

theorem perRowCell_glyph (letters : List Char) (thr : Option (Nat × Nat × Nat))
    (c col : BGR) (x : Nat) (ch : Char)
    (hc : perRowCell letters thr c x = .ok (.glyph col ch)) :
    col = c ∧ ch = specCycleChar letters x := by
  by_cases h : letters = []
  · subst h
    cases hb : isBackground thr c with
    | true => simp [perRowCell, pymod, hb] at hc
    | false => simp [perRowCell, pymod, hb] at hc
  · rw [show perRowCell letters thr c x =
        if isBackground thr c then .ok .blank
        else .ok (.glyph c (specCycleChar letters x)) from ?_] at hc
    · rcases hb : isBackground thr c with _ | _ <;> simp [hb] at hc
      exact ⟨hc.1.symm, hc.2.symm⟩
    · have hL : letters.length ≠ 0 := Nat.pos_iff_ne_zero.mp (length_pos_of_ne_nil h)
      have hlt : x % letters.length < letters.length :=
        Nat.mod_lt _ (length_pos_of_ne_nil h)
      have hx : letters[x % letters.length]? =
          some letters[x % letters.length] := List.getElem?_eq_getElem hlt
      have hgD : letters.getD (x % letters.length) ' ' =
          letters[x % letters.length] := by
        simp [List.getD, hx]
      simp [perRowCell, pymod, pyindex, hL, List.get?_eq_getElem?, hx,
        specCycleChar, hgD]

theorem perRowRowFrom_glyph (letters : List Char) (thr : Option (Nat × Nat × Nat))
    (row : List BGR) (x0 i : Nat) (os : List CellOut) (col : BGR) (ch : Char)
    (hrow : perRowRowFrom letters thr x0 row = .ok os)
    (hi : os.get? i = some (.glyph col ch)) :
    ch = specCycleChar letters (x0 + i) := by
  induction row generalizing x0 i os with
  | nil =>
    simp [perRowRowFrom] at hrow
    subst hrow
    simp at hi
  | cons c cs ih =>
    rcases hcell : perRowCell letters thr c x0 with e | o
    · simp [perRowRowFrom, hcell] at hrow
    · rcases hrest : perRowRowFrom letters thr (x0 + 1) cs with e | os2
      · simp [perRowRowFrom, hcell, hrest] at hrow
      · simp [perRowRowFrom, hcell, hrest] at hrow
        subst hrow
        cases i with
        | zero =>
          simp at hi
          subst hi
          have := perRowCell_glyph letters thr c col x0 ch hcell
          simpa using this.2
        | succ i =>
          simp at hi
          have := ih (x0 + 1) i os2 hrest (by simpa [List.get?_eq_getElem?] using hi)
          have harith : x0 + 1 + i = x0 + (i + 1) := by omega
          rw [this, harith]

theorem perRowFrame_glyph (letters : List Char) (thr : Option (Nat × Nat × Nat))
    (rows : Frame) (x y : Nat) (oss : List (List CellOut)) (col : BGR) (ch : Char)
    (hframe : perRowFrame letters thr rows = .ok oss)
    (hcell : gridCell oss x y = some (.glyph col ch)) :
    ch = specCycleChar letters x := by
  induction rows generalizing y oss with
  | nil =>
    simp [perRowFrame] at hframe
    subst hframe
    simp [gridCell] at hcell
  | cons row rest ih =>
    rcases hr : perRowRowFrom letters thr 0 row with e | os
    · simp [perRowFrame, hr] at hframe
    · rcases hrs : perRowFrame letters thr rest with e | oss2
      · simp [perRowFrame, hr, hrs] at hframe
      · simp [perRowFrame, hr, hrs] at hframe
        subst hframe
        cases y with
        | zero =>
          simp [gridCell] at hcell
          have := perRowRowFrom_glyph letters thr row 0 x os col ch hr
            (by simpa [List.get?_eq_getElem?] using hcell)
          simpa using this
        | succ y =>
          apply ih y oss2 hrs
          simpa [gridCell] using hcell

theorem streamVideo_append_ok (letters : List Char) (thr : Option (Nat × Nat × Nat))
    (v : List Frame) (f : Frame) (idx n n' : Nat)
    (os : List (List (List CellOut))) (o : List (List CellOut))
    (hv : streamVideo letters thr v idx = .ok (os, n))
    (hf : streamFrame letters thr f n = .ok (o, n')) :
    streamVideo letters thr (v ++ [f]) idx = .ok (os ++ [o], n') := by
  induction v generalizing idx os n with
  | nil =>
    simp [streamVideo] at hv
    obtain ⟨h1, h2⟩ := hv
    subst h1; subst h2
    simp [streamVideo, hf]
  | cons g v ih =>
    rcases hg : streamFrame letters thr g idx with e | p
    · simp [streamVideo, hg] at hv
    · obtain ⟨og, idxg⟩ := p
      rcases hrest : streamVideo letters thr v idxg with e | q
      · simp [streamVideo, hg, hrest] at hv
      · obtain ⟨osr, nr⟩ := q
        simp [streamVideo, hg, hrest] at hv
        obtain ⟨h1, h2⟩ := hv
        subst h1; subst h2
        simp [streamVideo, hg, ih idxg nr osr hrest hf]

theorem tiledVideo_append_ok (letters : List Char) (thr : Option (Nat × Nat × Nat))
    (v : List Frame) (f : Frame)
    (ts : List (List (List CellOut))) (t : List (List CellOut))
    (hv : tiledVideo letters thr v = .ok ts)
    (hf : tiledFrameOut letters thr f = .ok t) :
    tiledVideo letters thr (v ++ [f]) = .ok (ts ++ [t]) := by
  induction v generalizing ts with
  | nil =>
    simp [tiledVideo] at hv
    subst hv
    simp [tiledVideo, hf]
  | cons g v ih =>
    rcases hg : tiledFrameOut letters thr g with e | og
    · simp [tiledVideo, hg] at hv
    · rcases hrest : tiledVideo letters thr v with e | tsr
      · simp [tiledVideo, hg, hrest] at hv
      · simp [tiledVideo, hg, hrest] at hv
        subst hv
        simp [tiledVideo, hg, ih tsr hrest]

theorem tiledFrameOut_nobg (letters : List Char) (thr : Option (Nat × Nat × Nat))
    (h : letters ≠ []) (f : Frame)
    (hbg : ∀ c ∈ f.flatten, isBackground thr c = false) :
    ∃ oss, tiledFrameOut letters thr f = .ok oss ∧
      oss.flatten = specRun letters 0 f.flatten := by
  obtain ⟨oss, hm, hf⟩ := mapGrid_tiled_nobg letters thr h f 0 hbg
  exact ⟨oss, by simp [tiledFrameOut, hm], hf⟩

theorem pyint_of_nonneg (q : ℚ) (h : 0 ≤ q) : pyint q = ⌊q⌋ := by
  simp [pyint, h]

theorem pyint_nonpos (q : ℚ) (h : q ≤ 0) : pyint q ≤ 0 := by
  unfold pyint
  split
  · have hq : q = 0 := le_antisymm h (by assumption)
    simp [hq]
  · exact Int.ceil_le.mpr (by exact_mod_cast h)

theorem visibleChars_append (a b : List Tok) :
    visibleChars (a ++ b) = visibleChars a ++ visibleChars b :=
  List.filterMap_append a b _

theorem visibleChars_renderCell (o : CellOut) :
    (visibleChars (renderCellToks o)).length = 1 := by
  cases o <;> rfl

theorem visibleChars_renderLine (cells : List CellOut) :
    (visibleChars (renderLineToks cells)).length = cells.length := by
  induction cells with
  | nil => rfl
  | cons c cs ih =>
    have hsplit : renderLineToks (c :: cs) =
        renderCellToks c ++ renderLineToks cs := by
      simp [renderLineToks]
    rw [hsplit, visibleChars_append, List.length_append,
      visibleChars_renderCell, ih, List.length_cons]
    omega

end Helpers

theorem streamCell_glyph_color (letters : List Char) (thr : Option (Nat × Nat × Nat))
    (c col : BGR) (ch : Char) (idx n : Nat)
    (hcell : streamCell letters thr c idx = .ok (.glyph col ch, n)) : col = c := by
  cases hb : isBackground thr c with
  | true => simp [streamCell, hb] at hcell
  | false =>
    rcases hpm : pymod idx letters.length with e | k
    · simp [streamCell, hb, hpm] at hcell
    · rcases hpi : pyindex letters k with e | ch2
      · simp [streamCell, hb, hpm, hpi] at hcell
      · simp [streamCell, hb, hpm, hpi] at hcell
        exact hcell.1.1.symm

theorem tiledCell_glyph_color (letters : List Char) (thr : Option (Nat × Nat × Nat))
    (c col : BGR) (ch : Char) (idx n : Nat)
    (hcell : tiledCell letters thr c idx = .ok (.glyph col ch, n)) : col = c := by
  cases hb : isBackground thr c with
  | true => simp [tiledCell, hb] at hcell
  | false =>
    rcases hpm : pymod idx letters.length with e | k
    · simp [tiledCell, hb, hpm] at hcell
    · rcases hpi : pyindex letters k with e | ch2
      · simp [tiledCell, hb, hpm, hpi] at hcell
      · simp [tiledCell, hb, hpm, hpi] at hcell
        exact hcell.1.1.symm

/-- C1: the claim says both variants advance the letter counter on every
visited cell, so on the spec's example (alphabet "AB", row
dark/white/dark/white, threshold (10,10,10), global mode) both non-blank
cells get 'B'. The streaming variant refutes it: its `continue` for a
suppressed cell happens before the counter increment, so the run maps the
example row to blank, ('A', white), blank, ('B', white), with the counter
ending at 2 (not 4) — not the claimed blank, ('B', white), blank,
('B', white). -/
theorem c1_counterexample :
    mapRow (streamCell ['A', 'B'] (some (10, 10, 10))) exampleRow 0 =
      .ok ([.blank, .glyph whitePix 'A', .blank, .glyph whitePix 'B'], 2) ∧
    ([CellOut.blank, .glyph whitePix 'A', .blank, .glyph whitePix 'B'] :
        List CellOut) ≠
      [CellOut.blank, .glyph whitePix 'B', .blank, .glyph whitePix 'B'] :=
  ⟨rfl, by decide⟩

/-- C1 (amended): in the tiled variant the counter advances on every visited
cell regardless of suppression, and on the spec's example the tiled output is
blank, ('B', white), blank, ('B', white) with the counter ending at 4; in the
streaming variant a suppressed cell leaves the counter untouched, and on the
same example the streaming output is blank, ('A', white), blank, ('B', white)
with the counter ending at 2. -/
theorem c1_amended (letters : List Char) (h : letters ≠ [])
    (thr : Option (Nat × Nat × Nat)) (c : BGR) (idx : Nat) :
    (∃ o, tiledCell letters thr c idx = .ok (o, idx + 1)) ∧
    (isBackground thr c = true → streamCell letters thr c idx = .ok (.blank, idx)) ∧
    mapRow (tiledCell ['A', 'B'] (some (10, 10, 10))) exampleRow 0 =
      .ok ([.blank, .glyph whitePix 'B', .blank, .glyph whitePix 'B'], 4) ∧
    mapRow (streamCell ['A', 'B'] (some (10, 10, 10))) exampleRow 0 =
      .ok ([.blank, .glyph whitePix 'A', .blank, .glyph whitePix 'B'], 2) := by
  refine ⟨tiledCell_ok letters thr h c idx, ?_, rfl, rfl⟩
  intro hb
  rw [streamCell_eq h]
  simp [hb]

/-- C1 witness: the amended statement instantiated at alphabet "A", no
threshold, pixel (1,2,3), counter 0. -/
theorem c1_witness :
    (['A'] : List Char) ≠ [] ∧
    ((∃ o, tiledCell ['A'] none ⟨1, 2, 3⟩ 0 = .ok (o, 1)) ∧
      (isBackground none ⟨1, 2, 3⟩ = true →
        streamCell ['A'] none ⟨1, 2, 3⟩ 0 = .ok (.blank, 0)) ∧
      mapRow (tiledCell ['A', 'B'] (some (10, 10, 10))) exampleRow 0 =
        .ok ([.blank, .glyph whitePix 'B', .blank, .glyph whitePix 'B'], 4) ∧
      mapRow (streamCell ['A', 'B'] (some (10, 10, 10))) exampleRow 0 =
        .ok ([.blank, .glyph whitePix 'A', .blank, .glyph whitePix 'B'], 2)) :=
  ⟨by decide, c1_amended ['A'] (by decide) none ⟨1, 2, 3⟩ 0⟩

/-- C2: in global-cycle mode the letter counter is cumulative across frame
boundaries in the streaming variant — a frame appended to the video is
processed starting from the counter value `n` the earlier frames produced —
whereas in the tiled variant every frame is processed by `tiledFrameOut`,
whose counter restarts at 0, independently of any preceding frames. -/
theorem c2_counter_lifetime (letters : List Char) (thr : Option (Nat × Nat × Nat))
    (v : List Frame) (f : Frame) :
    (∀ idx n n' os o, streamVideo letters thr v idx = .ok (os, n) →
      streamFrame letters thr f n = .ok (o, n') →
      streamVideo letters thr (v ++ [f]) idx = .ok (os ++ [o], n')) ∧
    (∀ ts t, tiledVideo letters thr v = .ok ts →
      tiledFrameOut letters thr f = .ok t →
      tiledVideo letters thr (v ++ [f]) = .ok (ts ++ [t])) :=
  ⟨fun idx n n' os o hv hf =>
      streamVideo_append_ok letters thr v f idx n n' os o hv hf,
    fun ts t hv hf => tiledVideo_append_ok letters thr v f ts t hv hf⟩

/-- C2 witness: with alphabet "AB" and two identical all-white 1x1 frames, the
streaming variant emits 'A' then 'B' (counter carried across the frame
boundary), while the tiled variant emits 'A' then 'A' (counter reset to 0 at
each frame). -/
theorem c2_witness :
    streamVideo ['A', 'B'] none ([[[whitePix]]] ++ [[[whitePix]]]) 0 =
      .ok ([[[.glyph whitePix 'A']]] ++ [[[.glyph whitePix 'B']]], 2) ∧
    tiledVideo ['A', 'B'] none ([[[whitePix]]] ++ [[[whitePix]]]) =
      .ok ([[[.glyph whitePix 'A']]] ++ [[[.glyph whitePix 'A']]]) :=
  ⟨(c2_counter_lifetime ['A', 'B'] none [[[whitePix]]] [[whitePix]]).1
      0 1 2 [[[.glyph whitePix 'A']]] [[.glyph whitePix 'B']] rfl rfl,
    (c2_counter_lifetime ['A', 'B'] none [[[whitePix]]] [[whitePix]]).2
      [[[.glyph whitePix 'A']]] [[.glyph whitePix 'A']] rfl rfl⟩

/-- C3: in global-cycle mode with no suppression (every visited cell fails the
background test, which in particular holds when the threshold is absent), the
character emitted at the k-th visited cell — 0-indexed from the start of the
counter's lifetime: the whole video for the streaming variant, one frame for
the tiled variant — is `Alphabet[k mod L]`, and it carries the cell's color. -/
theorem c3_no_suppression (letters : List Char) (h : letters ≠ [])
    (thr : Option (Nat × Nat × Nat)) (video : List Frame) (f : Frame)
    (hv : ∀ c ∈ videoCells video, isBackground thr c = false)
    (hf : ∀ c ∈ f.flatten, isBackground thr c = false) :
    (∃ out, streamVideo letters thr video 0 =
        .ok (out, (videoCells video).length) ∧
      ∀ k, (videoOutCells out).get? k =
        ((videoCells video).get? k).map fun c =>
          CellOut.glyph c (specCycleChar letters k)) ∧
    (∃ oss, tiledFrameOut letters thr f = .ok oss ∧
      ∀ k, oss.flatten.get? k =
        (f.flatten.get? k).map fun c =>
          CellOut.glyph c (specCycleChar letters k)) := by
  constructor
  · obtain ⟨out, hrun, hflat⟩ := streamVideo_nobg letters thr h video 0 hv
    refine ⟨out, by simpa using hrun, fun k => ?_⟩
    rw [hflat, specRun_get?]
    simp
  · obtain ⟨oss, hrun, hflat⟩ := tiledFrameOut_nobg letters thr h f hf
    refine ⟨oss, hrun, fun k => ?_⟩
    rw [hflat, specRun_get?]
    simp

/-- C3 witness: alphabet "AB", threshold (10,10,10), a one-frame all-white
video and an all-white 2x1 frame (nothing is suppressed). -/
theorem c3_witness :
    (['A', 'B'] : List Char) ≠ [] ∧
    (∀ c ∈ videoCells [[[whitePix]]], isBackground (some (10, 10, 10)) c = false) ∧
    (∀ c ∈ ([[whitePix, whitePix]] : Frame).flatten,
      isBackground (some (10, 10, 10)) c = false) ∧
    ((∃ out, streamVideo ['A', 'B'] (some (10, 10, 10)) [[[whitePix]]] 0 =
        .ok (out, (videoCells [[[whitePix]]]).length) ∧
      ∀ k, (videoOutCells out).get? k =
        ((videoCells [[[whitePix]]]).get? k).map fun c =>
          CellOut.glyph c (specCycleChar ['A', 'B'] k)) ∧
    (∃ oss, tiledFrameOut ['A', 'B'] (some (10, 10, 10)) [[whitePix, whitePix]] =
        .ok oss ∧
      ∀ k, oss.flatten.get? k =
        (([[whitePix, whitePix]] : Frame).flatten.get? k).map fun c =>
          CellOut.glyph c (specCycleChar ['A', 'B'] k))) :=
  ⟨by decide, by decide, by decide,
    c3_no_suppression ['A', 'B'] (by decide) (some (10, 10, 10)) [[[whitePix]]]
      [[whitePix, whitePix]] (by decide) (by decide)⟩

/-- C4: with threshold (tb, tg, tr) a cell of color (b, g, r) is suppressed
(blank, no glyph) iff b ≤ tb and g ≤ tg and r ≤ tr; a cell violating the
conjunction always emits a glyph; and with the threshold absent no cell is
ever suppressed — in both variants. -/
theorem c4_suppression_rule (letters : List Char) (h : letters ≠ [])
    (tb tg tr : Nat) (c : BGR) (idx : Nat) :
    ((c.b ≤ tb ∧ c.g ≤ tg ∧ c.r ≤ tr) →
      streamCell letters (some (tb, tg, tr)) c idx = .ok (.blank, idx) ∧
      tiledCell letters (some (tb, tg, tr)) c idx = .ok (.blank, idx + 1)) ∧
    (¬(c.b ≤ tb ∧ c.g ≤ tg ∧ c.r ≤ tr) →
      (∃ ch, streamCell letters (some (tb, tg, tr)) c idx =
        .ok (.glyph c ch, idx + 1)) ∧
      (∃ ch, tiledCell letters (some (tb, tg, tr)) c idx =
        .ok (.glyph c ch, idx + 1))) ∧
    (∃ ch, streamCell letters none c idx = .ok (.glyph c ch, idx + 1)) ∧
    (∃ ch, tiledCell letters none c idx = .ok (.glyph c ch, idx + 1)) := by
  refine ⟨?_, ?_, ?_, ?_⟩
  · intro hbg
    have hb : isBackground (some (tb, tg, tr)) c = true := by
      simp [isBackground, hbg]
    constructor
    · rw [streamCell_eq h]
      simp [hb]
    · rw [tiledCell_eq h]
      simp [hb]
  · intro hbg
    have hb : isBackground (some (tb, tg, tr)) c = false := by
      simp [isBackground, hbg]
    constructor
    · exact ⟨specCycleChar letters idx, by rw [streamCell_eq h]; simp [hb]⟩
    · exact ⟨specCycleChar letters idx, by rw [tiledCell_eq h]; simp [hb]⟩
  · exact ⟨specCycleChar letters idx, by rw [streamCell_eq h]; simp [isBackground]⟩
  · exact ⟨specCycleChar letters idx, by rw [tiledCell_eq h]; simp [isBackground]⟩

/-- C4 witness: alphabet "A", threshold (10,10,10), white pixel, counter 0. -/
theorem c4_witness :
    (['A'] : List Char) ≠ [] ∧
    (((whitePix.b ≤ 10 ∧ whitePix.g ≤ 10 ∧ whitePix.r ≤ 10) →
      streamCell ['A'] (some (10, 10, 10)) whitePix 0 = .ok (.blank, 0) ∧
      tiledCell ['A'] (some (10, 10, 10)) whitePix 0 = .ok (.blank, 0 + 1)) ∧
    (¬(whitePix.b ≤ 10 ∧ whitePix.g ≤ 10 ∧ whitePix.r ≤ 10) →
      (∃ ch, streamCell ['A'] (some (10, 10, 10)) whitePix 0 =
        .ok (.glyph whitePix ch, 0 + 1)) ∧
      (∃ ch, tiledCell ['A'] (some (10, 10, 10)) whitePix 0 =
        .ok (.glyph whitePix ch, 0 + 1))) ∧
    (∃ ch, streamCell ['A'] none whitePix 0 = .ok (.glyph whitePix ch, 0 + 1)) ∧
    (∃ ch, tiledCell ['A'] none whitePix 0 = .ok (.glyph whitePix ch, 0 + 1))) :=
  ⟨by decide, c4_suppression_rule ['A'] (by decide) 10 10 10 whitePix 0⟩

/-- C5: the color attached to an emitted glyph is exactly the cell's sampled
pixel color, and the channel wiring is the identity: the streaming variant
puts the pixel's (r, g, b) into the ANSI escape's (red, green, blue) slots,
and the tiled variant passes the pixel's (b, g, r) as an OpenCV (blue, green,
red) tuple — no transformation in either path. -/
theorem c5_color_fidelity (letters : List Char) (thr : Option (Nat × Nat × Nat))
    (c col : BGR) (ch : Char) (idx n : Nat) :
    (streamCell letters thr c idx = .ok (.glyph col ch, n) → col = c) ∧
    (tiledCell letters thr c idx = .ok (.glyph col ch, n) → col = c) ∧
    ansiDisplayedRGB (streamEscapeArgs c) = pixelRGB c ∧
    cvDisplayedBGR (tiledPutTextColor c) = pixelBGR c :=
  ⟨fun hcell => streamCell_glyph_color letters thr c col ch idx n hcell,
    fun hcell => tiledCell_glyph_color letters thr c col ch idx n hcell,
    rfl, rfl⟩

/-- C5 witness: instantiated at alphabet "A", no threshold, pixel (1,2,3),
whose glyph is ('A', (1,2,3)). -/
theorem c5_witness :
    (streamCell ['A'] none ⟨1, 2, 3⟩ 0 = .ok (.glyph ⟨1, 2, 3⟩ 'A', 1)) ∧
    ((streamCell ['A'] none ⟨1, 2, 3⟩ 0 = .ok (.glyph ⟨1, 2, 3⟩ 'A', 1) →
        (⟨1, 2, 3⟩ : BGR) = ⟨1, 2, 3⟩) ∧
      (tiledCell ['A'] none ⟨1, 2, 3⟩ 0 = .ok (.glyph ⟨1, 2, 3⟩ 'A', 1) →
        (⟨1, 2, 3⟩ : BGR) = ⟨1, 2, 3⟩) ∧
      ansiDisplayedRGB (streamEscapeArgs ⟨1, 2, 3⟩) = pixelRGB ⟨1, 2, 3⟩ ∧
      cvDisplayedBGR (tiledPutTextColor ⟨1, 2, 3⟩) = pixelBGR ⟨1, 2, 3⟩) :=
  ⟨rfl, c5_color_fidelity ['A'] none ⟨1, 2, 3⟩ ⟨1, 2, 3⟩ 'A' 0 1⟩

/-- C6: for every downscale factor f with 0 < f ≤ 1 and any source dimensions
W x H, the grid dimensions are max(1, floor(W*f)) by max(1, floor(H*f)),
and both are strictly positive. -/
theorem c6_grid_size (f : ℚ) (W H : ℕ) (h0 : 0 < f) (_hf1 : f ≤ 1) :
    new_w W f = max 1 ⌊(W : ℚ) * f⌋ ∧ new_h H f = max 1 ⌊(H : ℚ) * f⌋ ∧
    0 < new_w W f ∧ 0 < new_h H f := by
  have hw : (0 : ℚ) ≤ (W : ℚ) * f := mul_nonneg (Nat.cast_nonneg W) h0.le
  have hh : (0 : ℚ) ≤ (H : ℚ) * f := mul_nonneg (Nat.cast_nonneg H) h0.le
  refine ⟨?_, ?_, ?_, ?_⟩
  · simp [new_w, pyint_of_nonneg _ hw]
  · simp [new_h, pyint_of_nonneg _ hh]
  · exact lt_of_lt_of_le zero_lt_one (le_max_left _ _)
  · exact lt_of_lt_of_le zero_lt_one (le_max_left _ _)

/-- C6 witness: f = 1/2, W = 5, H = 0 (the height would floor to 0 and is
clamped to 1). -/
theorem c6_witness :
    (0 : ℚ) < 1 ∧ (1 : ℚ) ≤ 1 ∧
    (new_w 5 1 = max 1 ⌊(5 : ℚ) * 1⌋ ∧
      new_h 0 1 = max 1 ⌊(0 : ℚ) * 1⌋ ∧
      0 < new_w 5 1 ∧ 0 < new_h 0 1) :=
  ⟨by decide, by decide, c6_grid_size 1 5 0 (by decide) (by decide)⟩

/-- C7: in the per-row-restart mode (modelled from the spec, the variant's
script being absent from src/) the emitted character at cell (x, y) is
`Alphabet[x mod L]`: it does not depend on y, on the frame, on the threshold,
or on which other cells are suppressed, so two glyph cells with equal
`x mod L` always show the same character. -/
theorem c7_per_row_mode (letters : List Char)
    (thr1 thr2 : Option (Nat × Nat × Nat)) (f1 f2 : Frame)
    (oss1 oss2 : List (List CellOut)) (x1 y1 x2 y2 : Nat)
    (c1 c2 : BGR) (ch1 ch2 : Char)
    (h1 : perRowFrame letters thr1 f1 = .ok oss1)
    (h2 : perRowFrame letters thr2 f2 = .ok oss2)
    (g1 : gridCell oss1 x1 y1 = some (.glyph c1 ch1))
    (g2 : gridCell oss2 x2 y2 = some (.glyph c2 ch2))
    (hx : x1 % letters.length = x2 % letters.length) :
    ch1 = specCycleChar letters x1 ∧ ch2 = specCycleChar letters x2 ∧
    ch1 = ch2 := by
  have e1 := perRowFrame_glyph letters thr1 f1 x1 y1 oss1 c1 ch1 h1 g1
  have e2 := perRowFrame_glyph letters thr2 f2 x2 y2 oss2 c2 ch2 h2 g2
  exact ⟨e1, e2, by rw [e1, e2]; exact specCycleChar_congr_mod letters x1 x2 hx⟩

/-- C7 witness: alphabet "AB"; frame 1 is all-white 1x1 without threshold,
frame 2 is 2x2 with a suppressed dark cell and threshold (10,10,10); the
glyphs at column 0 of row 0 (frame 1) and column 0 of row 1 (frame 2) are
both 'A'. -/
theorem c7_witness :
    (perRowFrame ['A', 'B'] none [[whitePix]] =
      .ok [[.glyph whitePix 'A']]) ∧
    (perRowFrame ['A', 'B'] (some (10, 10, 10))
        [[darkPix, whitePix], [whitePix, whitePix]] =
      .ok [[.blank, .glyph whitePix 'B'],
        [.glyph whitePix 'A', .glyph whitePix 'B']]) ∧
    (gridCell [[.glyph whitePix 'A']] 0 0 = some (.glyph whitePix 'A')) ∧
    (gridCell [[.blank, .glyph whitePix 'B'],
        [.glyph whitePix 'A', .glyph whitePix 'B']] 0 1 =
      some (.glyph whitePix 'A')) ∧
    0 % (['A', 'B'] : List Char).length = 0 % (['A', 'B'] : List Char).length ∧
    ('A' = specCycleChar ['A', 'B'] 0 ∧ 'A' = specCycleChar ['A', 'B'] 0 ∧
      ('A' : Char) = 'A') :=
  ⟨rfl, rfl, rfl, rfl, rfl,
    c7_per_row_mode ['A', 'B'] none (some (10, 10, 10)) [[whitePix]]
      [[darkPix, whitePix], [whitePix, whitePix]]
      [[.glyph whitePix 'A']]
      [[.blank, .glyph whitePix 'B'], [.glyph whitePix 'A', .glyph whitePix 'B']]
      0 0 0 1 whitePix whitePix 'A' 'A' rfl rfl rfl rfl rfl⟩

/-- C8: the claim says an empty alphabet or a non-positive downscale factor
makes the program fail fast before processing any frame. Refutation: with
downscale -1 the computed grid is clamped to 1x1 and a run over a one-frame
video completes normally and emits output — no configuration error is ever
raised; and with an empty alphabet a run over an empty video also completes
without error, so no configuration check precedes frame processing. -/
theorem c8_counterexample :
    new_w 100 (-1) = 1 ∧ new_h 80 (-1) = 1 ∧
    streamVideo ['A'] none [[[whitePix]]] 0 =
      .ok ([[[.glyph whitePix 'A']]], 1) ∧
    tiledVideo ['A'] none [[[whitePix]]] = .ok [[[.glyph whitePix 'A']]] ∧
    streamVideo [] none [] 0 = .ok ([], 0) ∧
    tiledVideo [] none [] = .ok [] := by
  refine ⟨?_, ?_, rfl, rfl, rfl, rfl⟩
  · unfold new_w
    exact max_eq_left (le_trans (pyint_nonpos _ (by norm_num)) zero_le_one)
  · unfold new_h
    exact max_eq_left (le_trans (pyint_nonpos _ (by norm_num)) zero_le_one)

/-- C8 (amended): neither variant checks its configuration before the loop. A
non-positive downscale factor causes no error at all — the computed grid
dimensions are clamped to 1 and processing proceeds. An empty alphabet causes
a ZeroDivisionError, but only when a non-suppressed cell of some frame is
mapped (i.e. during frame processing); a run with no frames completes without
any error. -/
theorem c8_amended (f : ℚ) (hf : f ≤ 0) (W H : ℕ)
    (thr : Option (Nat × Nat × Nat)) (c : BGR) (idx : Nat)
    (hc : isBackground thr c = false) :
    new_w W f = 1 ∧ new_h H f = 1 ∧
    streamVideo [] thr [] 0 = .ok ([], 0) ∧
    tiledVideo [] thr [] = .ok [] ∧
    streamCell [] thr c idx = .error .zeroDivisionError ∧
    tiledCell [] thr c idx = .error .zeroDivisionError := by
  have hqw : ((W : ℚ) * f) ≤ 0 :=
    calc (W : ℚ) * f ≤ (W : ℚ) * 0 :=
          mul_le_mul_of_nonneg_left hf (Nat.cast_nonneg W)
      _ = 0 := mul_zero _
  have hqh : ((H : ℚ) * f) ≤ 0 :=
    calc (H : ℚ) * f ≤ (H : ℚ) * 0 :=
          mul_le_mul_of_nonneg_left hf (Nat.cast_nonneg H)
      _ = 0 := mul_zero _
  refine ⟨?_, ?_, rfl, rfl, ?_, ?_⟩
  · unfold new_w
    exact max_eq_left (le_trans (pyint_nonpos _ hqw) zero_le_one)
  · unfold new_h
    exact max_eq_left (le_trans (pyint_nonpos _ hqh) zero_le_one)
  · simp [streamCell, hc, pymod]
  · simp [tiledCell, hc, pymod]

/-- C8 witness: downscale 0, dimensions 3x4, no threshold, white pixel. -/
theorem c8_amended_witness :
    (0 : ℚ) ≤ 0 ∧ isBackground none whitePix = false ∧
    (new_w 3 0 = 1 ∧ new_h 4 0 = 1 ∧
      streamVideo [] none [] 0 = .ok ([], 0) ∧
      tiledVideo [] none [] = .ok [] ∧
      streamCell [] none whitePix 0 = .error .zeroDivisionError ∧
      tiledCell [] none whitePix 0 = .error .zeroDivisionError) :=
  ⟨by decide, rfl, c8_amended 0 (by decide) 3 4 none whitePix 0 rfl⟩

/-- C9: the claim says both variants release their handles on every exit
path. Refutation: in the tiled variant the release calls are plain statements
after the loop, so when the loop raises (here: ZeroDivisionError from an empty
alphabet on a one-frame video) the error propagates with neither the capture
handle nor the output video handle released. -/
theorem c9_counterexample :
    tiledRun [] none [[[whitePix]]] =
      (.error .zeroDivisionError, false, false) ∧
    (false ≠ true) :=
  ⟨rfl, by decide⟩

/-- C9 (amended): the streaming variant releases its capture handle on every
exit path — end of stream, mid-loop error, or user interrupt — because the
loop is wrapped in try/finally; the tiled variant releases the capture and
output handles exactly on normal end-of-stream, and a mid-loop error
propagates before either release. -/
theorem c9_amended (letters : List Char) (thr : Option (Nat × Nat × Nat))
    (video : List Frame) (intr : Option Nat) :
    (streamRun letters thr video intr).2 = true ∧
    (∀ oss, tiledVideo letters thr video = .ok oss →
      tiledRun letters thr video = (.ok oss, true, true)) ∧
    (∀ e, tiledVideo letters thr video = .error e →
      tiledRun letters thr video = (.error e, false, false)) :=
  ⟨rfl, fun oss hok => by simp [tiledRun, hok],
    fun e herr => by simp [tiledRun, herr]⟩

/-- C9 witness: empty alphabet on a one-frame video — the streaming run still
reports the capture released, the tiled run errors with nothing released. -/
theorem c9_witness :
    (streamRun [] none [[[whitePix]]] none).2 = true ∧
    tiledRun [] none [[[whitePix]]] =
      (.error .zeroDivisionError, false, false) :=
  ⟨(c9_amended [] none [[[whitePix]]] none).1,
    (c9_amended [] none [[[whitePix]]] none).2.2 .zeroDivisionError rfl⟩

/-- C10: in the streaming variant every rendered line has exactly one
character cell per grid column: the mapped row has one entry per pixel, the
line's visible characters (escapes occupy no column) number exactly the row
width, and a suppressed cell renders as the single literal space with no
color escape. -/
theorem c10_line_shape (letters : List Char) (h : letters ≠ [])
    (thr : Option (Nat × Nat × Nat)) (row : List BGR) (idx : Nat) :
    ∃ cells idx2, mapRow (streamCell letters thr) row idx = .ok (cells, idx2) ∧
      cells.length = row.length ∧
      (visibleChars (renderLineToks cells)).length = row.length ∧
      ∀ o ∈ cells, o = .blank → renderCellToks o = [.chr ' '] := by
  obtain ⟨cells, idx2, hmap, hlen⟩ := mapRow_stream_ok letters thr h row idx
  exact ⟨cells, idx2, hmap, hlen, by rw [visibleChars_renderLine, hlen],
    fun o _ ho => by rw [ho]; rfl⟩

/-- C10 witness: alphabet "AB", threshold (10,10,10), the spec's example row
(two suppressed cells), counter 0. -/
theorem c10_witness :
    (['A', 'B'] : List Char) ≠ [] ∧
    (∃ cells idx2,
      mapRow (streamCell ['A', 'B'] (some (10, 10, 10))) exampleRow 0 =
        .ok (cells, idx2) ∧
      cells.length = exampleRow.length ∧
      (visibleChars (renderLineToks cells)).length = exampleRow.length ∧
      ∀ o ∈ cells, o = .blank → renderCellToks o = [.chr ' ']) :=
  ⟨by decide, c10_line_shape ['A', 'B'] (by decide) (some (10, 10, 10))
    exampleRow 0⟩
